import Mathlib

/-!
Verification of the real-time broadcast core of the service-mesh observatory
backend: the WebSocket `ConnectionManager` (src/backend/app/core/websocket.py)
and the background `MetricsCollector`
(src/backend/app/services/metrics_collector.py).

Python dicts are embedded as association lists with unique keys (insertion
order preserved, as in CPython); Python lists as Lean lists; connections
(WebSocket handles) as natural numbers; transport outcomes (whether an
`accept`/`send` coroutine raises) are passed in as explicit booleans.
-/

namespace Observatory

/-- Association-list embedding of a Python dict lookup `d.get(k)` /
`d[k]` presence test. -/
def dictLookup {α β : Type} [DecidableEq α] (k : α) : List (α × β) → Option β
  | [] => none
  | (k', v) :: rest => if k' = k then some v else dictLookup k rest

/-- Association-list embedding of Python dict assignment `d[k] = v`:
overwrites in place when the key is present, otherwise appends (CPython
keeps the original insertion position on overwrite). -/
def dictInsert {α β : Type} [DecidableEq α] (k : α) (v : β) :
    List (α × β) → List (α × β)
  | [] => [(k, v)]
  | (k', w) :: rest =>
      if k' = k then (k', v) :: rest else (k', w) :: dictInsert k v rest

/-- Association-list embedding of Python `del d[k]`.  CPython raises
`KeyError` when the key is absent; every `del` in the source is guarded by
a membership test that (under the registry invariant proved below) implies
presence, so the absent case — here a no-op — is never reached. -/
def dictErase {α β : Type} [DecidableEq α] (k : α) :
    List (α × β) → List (α × β)
  | [] => []
  | (k', w) :: rest =>
      if k' = k then rest else (k', w) :: dictErase k rest

/-- Per-connection bookkeeping stored in `connection_metadata`
(websocket.py lines 26-29): `connected_at` timestamp and the
`messages_sent` counter. -/
structure ConnMeta where
  connected_at : Nat
  messages_sent : Nat
deriving DecidableEq, Repr

/-- State of `ConnectionManager` (websocket.py lines 18-20):
`active_connections` is a Python list of WebSocket handles,
`connection_metadata` a dict keyed by handle. -/
structure ConnectionManager where
  active_connections : List Nat
  connection_metadata : List (Nat × ConnMeta)
deriving DecidableEq, Repr

/-- A fresh `ConnectionManager()` (websocket.py `__init__`). -/
def emptyManager : ConnectionManager := ⟨[], []⟩

/-- `ConnectionManager.connect` (websocket.py lines 22-33).
`await websocket.accept()` is the first statement; `acceptOk` is whether
that handshake coroutine succeeds.  When it raises, the exception
propagates to the caller with the registry in its unmodified state (the
`error` payload carries the state visible at raise time); on success the
handle is appended to the live list and a metadata entry with
`messages_sent = 0` is created. -/
def connect (acceptOk : Bool) (now ws : Nat) (m : ConnectionManager) :
    Except (String × ConnectionManager) ConnectionManager :=
  if acceptOk then
    .ok ⟨m.active_connections ++ [ws],
         dictInsert ws ⟨now, 0⟩ m.connection_metadata⟩
  else
    .error ("accept failed", m)

/-- `ConnectionManager.disconnect` (websocket.py lines 35-43): guarded by
`if websocket in self.active_connections`; removes the first occurrence
from the list (`list.remove`) and deletes the metadata entry. -/
def disconnect (ws : Nat) (m : ConnectionManager) : ConnectionManager :=
  if ws ∈ m.active_connections then
    ⟨m.active_connections.erase ws, dictErase ws m.connection_metadata⟩
  else m

/-- `ConnectionManager.send_personal_message` (websocket.py lines 45-52).
`sendOk` is whether `websocket.send_json` succeeds.  The `try` block covers
both the send and the counter increment, so a `KeyError` from a missing
metadata entry is also caught; every caught exception leads to
`disconnect`. -/
def send_personal_message (sendOk : Bool) (ws : Nat) (m : ConnectionManager) :
    ConnectionManager :=
  if sendOk then
    match dictLookup ws m.connection_metadata with
    | some v =>
        { m with connection_metadata :=
            (dictInsert ws ⟨v.connected_at, v.messages_sent + 1⟩
              m.connection_metadata) }
    | none => disconnect ws m
  else disconnect ws m

/-- The fan-out `for` loop of `ConnectionManager.broadcast` (websocket.py
lines 59-65), sequential semantics (no interleaved registry mutation):
walks the connection list, incrementing `messages_sent` on a successful
send and collecting failed connections in `disconnected`.  A `KeyError`
on the increment is caught by the same `except` and also lands the
connection in `disconnected`.  `fails ws` is whether `send_text` to `ws`
raises. -/
def fanout (fails : Nat → Bool) :
    List Nat → List (Nat × ConnMeta) → List Nat →
    List (Nat × ConnMeta) × List Nat
  | [], md, disc => (md, disc)
  | c :: rest, md, disc =>
      if fails c then fanout fails rest md (disc ++ [c])
      else
        match dictLookup c md with
        | some v =>
            fanout fails rest
              (dictInsert c ⟨v.connected_at, v.messages_sent + 1⟩ md) disc
        | none => fanout fails rest md (disc ++ [c])

/-- `ConnectionManager.broadcast` (websocket.py lines 54-75), sequential
semantics: fan-out over the connection list, then the deferred clean-up
loop `for connection in disconnected: self.disconnect(connection)`. -/
def broadcast (fails : Nat → Bool) (m : ConnectionManager) :
    ConnectionManager :=
  let r := fanout fails m.active_connections m.connection_metadata []
  r.2.foldl (fun st c => disconnect c st) ⟨m.active_connections, r.1⟩

/-- `ConnectionManager.get_connection_count` (websocket.py lines 110-112). -/
def get_connection_count (m : ConnectionManager) : Nat :=
  m.active_connections.length

/-- Result shape of `get_connection_stats`. -/
structure ConnStats where
  active_connections : Nat
  total_messages_sent : Nat
deriving DecidableEq, Repr

/-- `ConnectionManager.get_connection_stats` (websocket.py lines 114-121):
a pure read of the list length and the sum of all `messages_sent`
counters in `connection_metadata`. -/
def get_connection_stats (m : ConnectionManager) : ConnStats :=
  ⟨m.active_connections.length,
   (m.connection_metadata.map (fun p => p.2.messages_sent)).sum⟩

/-- Registry well-formedness: the live list has no duplicate handles, the
metadata dict has no duplicate keys, every live connection has a metadata
entry and every metadata entry belongs to a live connection (the live list
and the metadata key set coincide). -/
def Inv (m : ConnectionManager) : Prop :=
  m.active_connections.Nodup ∧
  (m.connection_metadata.map Prod.fst).Nodup ∧
  (∀ c ∈ m.active_connections,
      (dictLookup c m.connection_metadata).isSome = true) ∧
  (∀ p ∈ m.connection_metadata, p.1 ∈ m.active_connections)

instance (m : ConnectionManager) : Decidable (Inv m) := by
  unfold Inv; infer_instance

/-- One registry API call, with its externally-determined transport
outcomes: `register` is a `connect` whose handshake succeeds,
`registerFail` one whose handshake raises (the caller sees the exception,
the registry keeps the state carried in it), `bcast failing` a `broadcast`
in which `send_text` raises exactly for the handles in `failing`, and
`stats` a `get_connection_stats` call (a pure read). -/
inductive ROp
  | register (now ws : Nat)
  | registerFail (ws : Nat)
  | unregister (ws : Nat)
  | send (ok : Bool) (ws : Nat)
  | bcast (failing : List Nat)
  | stats
deriving DecidableEq, Repr

/-- Effect of one API call on the registry state. -/
def applyOp (m : ConnectionManager) : ROp → ConnectionManager
  | .register now ws =>
      match connect true now ws m with
      | .ok m' => m'
      | .error e => e.2
  | .registerFail ws =>
      match connect false 0 ws m with
      | .ok m' => m'
      | .error e => e.2
  | .unregister ws => disconnect ws m
  | .send ok ws => send_personal_message ok ws m
  | .bcast failing => broadcast (fun c => failing.contains c) m
  | .stats => m

/-- Registry state after a sequence of API calls on a given start state. -/
def applyOps (m : ConnectionManager) (ops : List ROp) : ConnectionManager :=
  ops.foldl applyOp m

/-- A call is admissible in state `m` when it is not a successful
`register` of a handle that is already live.  This encodes the spec's data
model (a connection handle is unique for its lifetime and never reused),
under which the transport layer never re-registers a live handle. -/
def regFresh (m : ConnectionManager) : ROp → Bool
  | .register _ ws => !(m.active_connections.contains ws)
  | _ => true

/-- Trace well-formedness: every successful `register` along the trace
uses a handle that is not live at that point. -/
def WFOps (m : ConnectionManager) : List ROp → Bool
  | [] => true
  | op :: rest => regFresh m op && WFOps (applyOp m op) rest

/-- Is this call one of `register` (successful or failed handshake) or
`unregister`? -/
def isRegUnreg : ROp → Bool
  | .register _ _ => true
  | .registerFail _ => true
  | .unregister _ => true
  | _ => false

/-- Does the trace consist solely of register/unregister calls? -/
def regUnregOnly : List ROp → Bool
  | [] => true
  | op :: rest => isRegUnreg op && regUnregOnly rest

/-- Reference reading of the spec sentence for C3: the connections
"registered and not yet unregistered" after a register/unregister trace,
computed directly from the trace (register appends the handle, unregister
discards it, a failed register never registers). -/
def specLive (l : List Nat) : List ROp → List Nat
  | [] => l
  | .register _ ws :: rest => specLive (l ++ [ws]) rest
  | .unregister ws :: rest => specLive (l.erase ws) rest
  | _ :: rest => specLive l rest

/-! ## Collector: metrics snapshot construction and loop body
(src/backend/app/services/metrics_collector.py) -/

/-- Values of the Python dict built by `_collect_metrics`: numbers from
the Prometheus overview, strings for the timestamp and error text. -/
inductive MVal
  | num (n : Int)
  | str (s : String)
deriving DecidableEq, Repr

/-- `MetricsCollector._collect_metrics` (metrics_collector.py lines
68-87).  `fetch` is the outcome of `prometheus_service.get_mesh_overview()`
(a mapping from field names to numbers, possibly missing fields; or a
raised exception with its message).  The `try` covers the whole body: on a
fetch exception the method catches it, logs, and returns a
`{timestamp, error}` dict instead of raising; on success it returns the
six-field snapshot, each field defaulting to 0 via `overview.get(k, 0)`.
`now` stands for `datetime.utcnow().isoformat()`. -/
def collect_metrics (now : String)
    (fetch : Except String (List (String × Int))) : List (String × MVal) :=
  match fetch with
  | .ok overview =>
      [("timestamp", .str now),
       ("request_rate", .num ((dictLookup "request_rate" overview).getD 0)),
       ("error_rate", .num ((dictLookup "error_rate" overview).getD 0)),
       ("p50_latency", .num ((dictLookup "p50_latency" overview).getD 0)),
       ("p95_latency", .num ((dictLookup "p95_latency" overview).getD 0)),
       ("p99_latency", .num ((dictLookup "p99_latency" overview).getD 0)),
       ("active_connections",
        .num ((dictLookup "active_connections" overview).getD 0))]
  | .error e => [("timestamp", .str now), ("error", .str e)]

/-- Observable outcome of one iteration of
`MetricsCollector._collection_loop` (metrics_collector.py lines 48-66). -/
structure IterResult where
  broadcastMade : Bool
  payload : Option (List (String × MVal))
  loopContinues : Bool
  manager : ConnectionManager
deriving DecidableEq, Repr

/-- One iteration of the collection loop body (metrics_collector.py lines
48-66): build the snapshot via `_collect_metrics` (which never raises —
it catches fetch errors internally), then broadcast it iff at least one
connection is registered.  The body's `except Exception` clause means no
iteration terminates the loop; the `while` condition is re-checked, so the
loop continues.  `fails` gives the per-connection `send_text` outcomes of
the broadcast. -/
def collection_loop_iter (fetch : Except String (List (String × Int)))
    (fails : Nat → Bool) (now : String) (m : ConnectionManager) :
    IterResult :=
  let metrics := collect_metrics now fetch
  if 0 < get_connection_count m then
    ⟨true, some metrics, true, broadcast fails m⟩
  else
    ⟨false, none, true, m⟩

/-! ## Collector lifecycle (metrics_collector.py lines 21-44)

Task-count abstraction: `is_running` and `task` mirror the `is_running`
flag and the `self._task is not None` test; `activeTasks` counts
not-yet-terminated collection-loop tasks.  The loop task never terminates
on its own: its body catches every `Exception`, and its `while` condition
is falsified only by `stop()` — which also cancels and awaits the task
before returning — so the only transition that ends a task is `stop`. -/

structure MetricsCollector where
  is_running : Bool
  task : Bool
  activeTasks : Nat
deriving DecidableEq, Repr

/-- A fresh `MetricsCollector()` (metrics_collector.py lines 21-23):
not running, `_task = None`, no loop task exists. -/
def collectorInit : MetricsCollector := ⟨false, false, 0⟩

/-- `MetricsCollector.start` (lines 25-33): if already running, log a
warning and return without touching any state; otherwise set the flag and
`asyncio.create_task` a new collection loop. -/
def startCollector (c : MetricsCollector) : MetricsCollector :=
  if c.is_running then c
  else ⟨true, true, c.activeTasks + 1⟩

/-- `MetricsCollector.stop` (lines 35-44): clear the flag; if a task
object exists, cancel it and await it until it has terminated (awaiting an
already-finished task returns immediately, hence the truncated
subtraction). -/
def stopCollector (c : MetricsCollector) : MetricsCollector :=
  ⟨false, c.task, if c.task then c.activeTasks - 1 else c.activeTasks⟩

/-- A lifecycle API call. -/
inductive LOp
  | start
  | stop
deriving DecidableEq, Repr

/-- Effect of one lifecycle call. -/
def applyLOp (c : MetricsCollector) : LOp → MetricsCollector
  | .start => startCollector c
  | .stop => stopCollector c

/-- Collector state after a sequence of lifecycle calls. -/
def applyLOps (c : MetricsCollector) (ops : List LOp) : MetricsCollector :=
  ops.foldl applyLOp c

/-! ## Collector shutdown as a labeled step system

Fine-grained model of the collection loop interleaved with a single
lifecycle controller (the application calls `start`/`stop` sequentially
from its own task, as in the process lifecycle hooks; `stop` suspends the
controller until `await self._task` returns).  The loop task's program
counter tracks its position between `await` suspension points:

  - `checkCond`: at `while self.is_running`;
  - `fetching`: suspended in `await self._collect_metrics()`;
  - `broadcasting`: at the connection-count test / `await broadcast`;
  - `sleeping`: suspended in `await asyncio.sleep(...)`;
  - `done`: the coroutine has returned or the `CancelledError` raised at
    a suspension point has propagated out (the body's `except Exception`
    does not catch `CancelledError`, which derives from `BaseException`).

`stop()` sets `is_running = False` and calls `self._task.cancel()` (when a
task object exists; a cancellation signal with no task to receive it is
never consumed, and `start` gives the fresh task a clear signal). -/

inductive PC
  | notStarted
  | checkCond
  | fetching
  | broadcasting
  | sleeping
  | done
deriving DecidableEq, Repr

/-- Controller position: `idle` between calls, `stopping` while a `stop()`
call is suspended on `await self._task`. -/
inductive Ctrl
  | idle
  | stopping
deriving DecidableEq, Repr

structure Sys where
  running : Bool
  cancelRequested : Bool
  pc : PC
  ctrl : Ctrl
deriving DecidableEq, Repr

/-- Initial system state: collector constructed, no task, controller idle. -/
def sysInit : Sys := ⟨false, false, .notStarted, .idle⟩

/-- Observable step labels: lifecycle calls and returns, the start of a
source fetch, the start of a registry broadcast, and internal moves. -/
inductive Label
  | startCall
  | stopCall
  | stopRet
  | fetchEv
  | broadcastEv
  | tau
deriving DecidableEq, Repr

/-- One labeled step.  `none` means the label is not enabled in `s`. -/
def sysStep (s : Sys) : Label → Option Sys
  | .startCall =>
      if s.ctrl = .idle then
        some (if s.running then s
              else ⟨true, false, .checkCond, .idle⟩)
      else none
  | .stopCall =>
      if s.ctrl = .idle then
        some ⟨false, true, s.pc, .stopping⟩
      else none
  | .stopRet =>
      if s.ctrl = .stopping ∧ (s.pc = .done ∨ s.pc = .notStarted) then
        some ⟨s.running, s.cancelRequested, s.pc, .idle⟩
      else none
  | .fetchEv =>
      if s.pc = .checkCond ∧ s.running = true ∧ s.cancelRequested = false then
        some ⟨s.running, s.cancelRequested, .fetching, s.ctrl⟩
      else none
  | .broadcastEv =>
      if s.pc = .broadcasting ∧ s.cancelRequested = false then
        some ⟨s.running, s.cancelRequested, .sleeping, s.ctrl⟩
      else none
  | .tau =>
      match s.pc with
      | .checkCond =>
          if s.running = false ∨ s.cancelRequested = true then
            some ⟨s.running, s.cancelRequested, .done, s.ctrl⟩
          else none
      | .fetching =>
          some ⟨s.running, s.cancelRequested,
                if s.cancelRequested then .done else .broadcasting, s.ctrl⟩
      | .broadcasting =>
          some ⟨s.running, s.cancelRequested,
                if s.cancelRequested then .done else .sleeping, s.ctrl⟩
      | .sleeping =>
          some ⟨s.running, s.cancelRequested,
                if s.cancelRequested then .done else .checkCond, s.ctrl⟩
      | _ => none

/-- Run a sequence of labeled steps; `none` if any step is not enabled. -/
def sysRun (s : Sys) : List Label → Option Sys
  | [] => some s
  | l :: ls =>
      match sysStep s l with
      | some s' => sysRun s' ls
      | none => none

/-! ## Broadcast fan-out interleaved with concurrent registry calls

`broadcast` (websocket.py line 59) iterates `self.active_connections` with
a plain `for` loop, i.e. a CPython list iterator holding a cursor index
into the *live* list object — no copy is taken.  The loop's only
suspension point is `await connection.send_text(...)`; while it is
suspended there, other tasks (connection handlers) may call
`disconnect`, mutating the very list being iterated.  The model below
makes each of these atomic phases a scheduled action:

  - `next`: the iterator fetches the element at the cursor from the
    current list (`StopIteration` when the cursor is past the end) and the
    send is started;
  - `resolve ok`: the suspended send completes (`ok` = the transport
    write succeeded); on success the counter increment runs and a missing
    metadata entry raises `KeyError`, caught by the same `except` that
    catches send failures, so both failure modes append to `disconnected`;
  - `envDisconnect ws`: another task calls `disconnect ws` — possible
    only while the fan-out is suspended in a send. -/

inductive BAct
  | next
  | resolve (ok : Bool)
  | envDisconnect (ws : Nat)
deriving DecidableEq, Repr

/-- Mid-fan-out state: the shared manager, the iterator cursor `idx`, the
connection whose send is in flight (`pending`), the `disconnected`
accumulator, and the ghost list `attempted` of connections a send was
started for. -/
structure BState where
  manager : ConnectionManager
  idx : Nat
  pending : Option Nat
  disconnected : List Nat
  attempted : List Nat
deriving DecidableEq, Repr

/-- Initial fan-out state over manager `m`. -/
def bInit (m : ConnectionManager) : BState := ⟨m, 0, none, [], []⟩

/-- One scheduled action of the interleaved fan-out. -/
def bStep (st : BState) : BAct → BState
  | .next =>
      match st.pending with
      | some _ => st
      | none =>
          match st.manager.active_connections[st.idx]? with
          | some c =>
              ⟨st.manager, st.idx + 1, some c, st.disconnected,
               st.attempted ++ [c]⟩
          | none => st
  | .resolve ok =>
      match st.pending with
      | none => st
      | some c =>
          if ok then
            match dictLookup c st.manager.connection_metadata with
            | some v =>
                ⟨{ st.manager with connection_metadata :=
                     (dictInsert c ⟨v.connected_at, v.messages_sent + 1⟩
                       st.manager.connection_metadata) },
                 st.idx, none, st.disconnected, st.attempted⟩
            | none =>
                ⟨st.manager, st.idx, none, st.disconnected ++ [c],
                 st.attempted⟩
          else
            ⟨st.manager, st.idx, none, st.disconnected ++ [c], st.attempted⟩
  | .envDisconnect ws =>
      match st.pending with
      | some _ =>
          ⟨disconnect ws st.manager, st.idx, st.pending, st.disconnected,
           st.attempted⟩
      | none => st

/-- Run a schedule of interleaved actions from the start of a `broadcast`
call on manager `m`. -/
def bRun (m : ConnectionManager) (sched : List BAct) : BState :=
  sched.foldl bStep (bInit m)

/-- The `for` loop has completed: no send in flight and the cursor has
passed the end of the (current) list, so the iterator raises
`StopIteration`. -/
def iterDone (st : BState) : Bool :=
  st.pending.isNone && decide (st.manager.active_connections.length ≤ st.idx)

/-- The deferred clean-up loop that ends `broadcast` (websocket.py lines
68-69): unregister every connection collected in `disconnected`. -/
def bFinish (st : BState) : ConnectionManager :=
  st.disconnected.foldl (fun s c => disconnect c s) st.manager

/-- Does a schedule contain any concurrent registry call? -/
def noEnvAct : List BAct → Bool
  | [] => true
  | .envDisconnect _ :: _ => false
  | _ :: rest => noEnvAct rest

/-! ## Helper lemmas about the dict embedding -/

theorem dictLookup_isSome_iff_mem {α β : Type} [DecidableEq α] (k : α)
    (l : List (α × β)) :
    (dictLookup k l).isSome = true ↔ k ∈ l.map Prod.fst := by
  induction l with
  | nil => simp [dictLookup]
  | cons p rest ih =>
      by_cases h : p.1 = k
      · simp [dictLookup, h]
      · simp [dictLookup, h, ih, Ne.symm h]

theorem dictLookup_insert_self {α β : Type} [DecidableEq α] (k : α) (v : β)
    (l : List (α × β)) :
    dictLookup k (dictInsert k v l) = some v := by
  induction l with
  | nil => simp [dictInsert, dictLookup]
  | cons p rest ih =>
      by_cases h : p.1 = k
      · simp [dictInsert, dictLookup, h]
      · simp [dictInsert, dictLookup, h, ih]

theorem dictLookup_insert_ne {α β : Type} [DecidableEq α] {k' k : α} (v : β)
    (l : List (α × β)) (h : k' ≠ k) :
    dictLookup k' (dictInsert k v l) = dictLookup k' l := by
  have hk : ¬k = k' := fun hh => h hh.symm
  induction l with
  | nil => simp [dictInsert, dictLookup, hk]
  | cons p rest ih =>
      by_cases hp : p.1 = k
      · rw [show dictInsert k v (p :: rest) = (p.1, v) :: rest by
          simp [dictInsert, hp]]
        have hp' : ¬p.1 = k' := fun hh => hk (hp ▸ hh)
        simp [dictLookup, hp']
      · by_cases hp' : p.1 = k'
        · simp [dictInsert, dictLookup, hp, hp', hk, h]
        · simp [dictInsert, dictLookup, hp, hp', ih]

theorem dictInsert_keys_of_mem {α β : Type} [DecidableEq α] {k : α} (v : β)
    {l : List (α × β)} (h : k ∈ l.map Prod.fst) :
    (dictInsert k v l).map Prod.fst = l.map Prod.fst := by
  induction l with
  | nil => simp at h
  | cons p rest ih =>
      by_cases hp : p.1 = k
      · simp [dictInsert, hp]
      · rw [List.map_cons, List.mem_cons] at h
        rcases h with h | h
        · exact absurd h.symm hp
        · simp [dictInsert, hp, ih h]

theorem dictInsert_keys_of_not_mem {α β : Type} [DecidableEq α] {k : α}
    (v : β) {l : List (α × β)} (h : k ∉ l.map Prod.fst) :
    (dictInsert k v l).map Prod.fst = l.map Prod.fst ++ [k] := by
  induction l with
  | nil => simp [dictInsert]
  | cons p rest ih =>
      rw [List.map_cons, List.mem_cons] at h
      push_neg at h
      have hp : ¬p.1 = k := fun hh => h.1 hh.symm
      simp [dictInsert, hp, ih h.2]

theorem dictInsert_mem {α β : Type} [DecidableEq α] {k : α} {v : β}
    {l : List (α × β)} {p : α × β} (h : p ∈ dictInsert k v l) :
    p ∈ l ∨ p = (k, v) := by
  induction l with
  | nil => simp [dictInsert] at h; simp [h]
  | cons q rest ih =>
      by_cases hq : q.1 = k
      · simp [dictInsert, hq] at h
        rcases h with h | h
        · right; rw [h, ← hq]
        · left; simp [h]
      · simp [dictInsert, hq] at h
        rcases h with h | h
        · left; simp [h]
        · rcases ih h with h' | h'
          · left; simp [h']
          · right; exact h'

theorem dictErase_keys {β : Type} (k : Nat) (l : List (Nat × β)) :
    (dictErase k l).map Prod.fst = (l.map Prod.fst).erase k := by
  induction l with
  | nil => simp [dictErase]
  | cons p rest ih =>
      by_cases hp : p.1 = k
      · simp [dictErase, hp, List.erase_cons]
      · simp [dictErase, hp, List.erase_cons, ih]

theorem dictErase_subset {α β : Type} [DecidableEq α] (k : α)
    {l : List (α × β)} {p : α × β} (h : p ∈ dictErase k l) : p ∈ l := by
  induction l with
  | nil => simp [dictErase] at h
  | cons q rest ih =>
      by_cases hq : q.1 = k
      · simp [dictErase, hq] at h
        simp [h]
      · simp [dictErase, hq] at h
        rcases h with h | h
        · simp [h]
        · simp [ih h]

theorem dictLookup_erase_ne {β : Type} {k' k : Nat} (l : List (Nat × β))
    (h : k' ≠ k) :
    dictLookup k' (dictErase k l) = dictLookup k' l := by
  induction l with
  | nil => simp [dictErase]
  | cons p rest ih =>
      by_cases hp : p.1 = k
      · rw [show dictErase k (p :: rest) = rest by simp [dictErase, hp]]
        have hp' : ¬p.1 = k' := fun hh => h ((hp ▸ hh).symm)
        simp [dictLookup, hp']
      · by_cases hp' : p.1 = k'
        · simp [dictErase, dictLookup, hp, hp', h]
        · simp [dictErase, dictLookup, hp, hp', ih]

theorem dictLookup_erase_self {β : Type} {k : Nat} {l : List (Nat × β)}
    (hnd : (l.map Prod.fst).Nodup) :
    dictLookup k (dictErase k l) = none := by
  induction l with
  | nil => simp [dictErase, dictLookup]
  | cons p rest ih =>
      rw [List.map_cons] at hnd
      have h1 := (List.nodup_cons.mp hnd).1
      have h2 := (List.nodup_cons.mp hnd).2
      by_cases hp : p.1 = k
      · rw [show dictErase k (p :: rest) = rest by simp [dictErase, hp]]
        by_contra hne
        have hs : (dictLookup k rest).isSome = true := by
          cases hlk : dictLookup k rest with
          | none => exact absurd hlk hne
          | some v => simp
        exact h1 (hp ▸ (dictLookup_isSome_iff_mem k rest).mp hs)
      · simp [dictErase, dictLookup, hp, ih h2]

theorem dictLookup_mem {α β : Type} [DecidableEq α] {k : α} {v : β} :
    ∀ {l : List (α × β)}, dictLookup k l = some v → (k, v) ∈ l := by
  intro l
  induction l with
  | nil => intro h; simp [dictLookup] at h
  | cons p rest ih =>
      intro h
      rcases p with ⟨a, b⟩
      by_cases hp : a = k
      · simp [dictLookup, hp] at h
        subst hp
        subst h
        exact List.mem_cons_self _ _
      · simp [dictLookup, hp] at h
        exact List.mem_cons_of_mem _ (ih h)

theorem dictLookup_of_mem_nodup {α β : Type} [DecidableEq α] {k : α} {v : β} :
    ∀ {l : List (α × β)}, (l.map Prod.fst).Nodup → (k, v) ∈ l →
      dictLookup k l = some v := by
  intro l
  induction l with
  | nil => intro _ h; simp at h
  | cons p rest ih =>
      intro hnd h
      rcases p with ⟨a, b⟩
      rw [List.map_cons, List.nodup_cons] at hnd
      rcases List.mem_cons.mp h with h | h
      · injection h with h1 h2
        subst h1
        subst h2
        simp [dictLookup]
      · have hk : k ∈ rest.map Prod.fst := List.mem_map.mpr ⟨(k, v), h, rfl⟩
        have ha : ¬a = k := fun hh => hnd.1 (by rw [hh]; exact hk)
        simp [dictLookup, ha, ih hnd.2 h]

/-! ## Fan-out lemmas -/

theorem fanout_keys (fails : Nat → Bool) :
    ∀ (conns : List Nat) (md : List (Nat × ConnMeta)) (disc : List Nat),
      ((fanout fails conns md disc).1).map Prod.fst = md.map Prod.fst := by
  intro conns
  induction conns with
  | nil => intro md disc; rfl
  | cons c rest ih =>
      intro md disc
      by_cases hc : fails c
      · simp [fanout, hc, ih]
      · cases hlk : dictLookup c md with
        | none => simp [fanout, hc, hlk, ih]
        | some v =>
            have hmem : c ∈ md.map Prod.fst :=
              (dictLookup_isSome_iff_mem c md).mp (by simp [hlk])
            simp [fanout, hc, hlk, ih, dictInsert_keys_of_mem _ hmem]

theorem fanout_disc (fails : Nat → Bool) :
    ∀ (conns : List Nat) (md : List (Nat × ConnMeta)) (disc : List Nat),
      (∀ c ∈ conns, (dictLookup c md).isSome = true) →
      (fanout fails conns md disc).2 = disc ++ conns.filter fails := by
  intro conns
  induction conns with
  | nil => intro md disc _; simp [fanout]
  | cons c rest ih =>
      intro md disc hpres
      by_cases hc : fails c
      · rw [show fanout fails (c :: rest) md disc
              = fanout fails rest md (disc ++ [c]) by simp [fanout, hc]]
        rw [ih md (disc ++ [c]) (fun x hx => hpres x (List.mem_cons_of_mem _ hx))]
        simp [List.filter_cons, hc]
      · cases hlk : dictLookup c md with
        | none =>
            exact absurd (hpres c (List.mem_cons_self _ _)) (by simp [hlk])
        | some v =>
            rw [show fanout fails (c :: rest) md disc
                  = fanout fails rest
                      (dictInsert c ⟨v.connected_at, v.messages_sent + 1⟩ md)
                      disc by simp [fanout, hc, hlk]]
            rw [ih _ disc ?_]
            · simp [List.filter_cons, hc]
            · intro x hx
              by_cases hxc : x = c
              · subst hxc
                simp [dictLookup_insert_self]
              · rw [dictLookup_insert_ne _ md hxc]
                exact hpres x (List.mem_cons_of_mem _ hx)

theorem fanout_lookup (fails : Nat → Bool) :
    ∀ (conns : List Nat) (md : List (Nat × ConnMeta)) (disc : List Nat),
      (md.map Prod.fst).Nodup → conns.Nodup →
      (∀ c ∈ conns, (dictLookup c md).isSome = true) →
      ∀ x, dictLookup x (fanout fails conns md disc).1 =
        (dictLookup x md).map (fun v =>
          if x ∈ conns ∧ fails x = false then
            ⟨v.connected_at, v.messages_sent + 1⟩
          else v) := by
  intro conns
  induction conns with
  | nil =>
      intro md disc _ _ _ x
      rw [show fanout fails [] md disc = (md, disc) from rfl]
      cases dictLookup x md <;> simp
  | cons c rest ih =>
      intro md disc hkeys hnd hpres x
      have hndr : rest.Nodup := (List.nodup_cons.mp hnd).2
      have hcr : c ∉ rest := (List.nodup_cons.mp hnd).1
      by_cases hc : fails c
      · rw [show fanout fails (c :: rest) md disc
              = fanout fails rest md (disc ++ [c]) by simp [fanout, hc]]
        rw [ih md (disc ++ [c]) hkeys hndr
              (fun y hy => hpres y (List.mem_cons_of_mem _ hy)) x]
        cases dictLookup x md with
        | none => simp
        | some v =>
            simp only [Option.map_some']
            by_cases hx : x ∈ rest ∧ fails x = false
            · rw [if_pos hx, if_pos ⟨List.mem_cons_of_mem _ hx.1, hx.2⟩]
            · have hcon : ¬(x ∈ c :: rest ∧ fails x = false) := by
                intro hcon
                rcases List.mem_cons.mp hcon.1 with hh | hh
                · have hf := hcon.2
                  rw [hh, hc] at hf
                  exact absurd hf (by decide)
                · exact hx ⟨hh, hcon.2⟩
              rw [if_neg hx, if_neg hcon]
      · cases hlk : dictLookup c md with
        | none =>
            exact absurd (hpres c (List.mem_cons_self _ _)) (by simp [hlk])
        | some v =>
            have hmem : c ∈ md.map Prod.fst :=
              (dictLookup_isSome_iff_mem c md).mp (by simp [hlk])
            rw [show fanout fails (c :: rest) md disc
                  = fanout fails rest
                      (dictInsert c ⟨v.connected_at, v.messages_sent + 1⟩ md)
                      disc by simp [fanout, hc, hlk]]
            rw [ih _ disc
                  (by rw [dictInsert_keys_of_mem _ hmem]; exact hkeys) hndr
                  ?_ x]
            · by_cases hxc : x = c
              · subst hxc
                rw [dictLookup_insert_self, hlk]
                simp only [Option.map_some']
                have h1 : ¬(x ∈ rest ∧ fails x = false) := fun hh => hcr hh.1
                have h2 : x ∈ x :: rest ∧ fails x = false :=
                  ⟨List.mem_cons_self _ _, by simpa using hc⟩
                rw [if_neg h1, if_pos h2]
              · rw [dictLookup_insert_ne _ md hxc]
                cases dictLookup x md with
                | none => simp
                | some w =>
                    simp only [Option.map_some']
                    have hiff : (x ∈ rest ∧ fails x = false)
                        ↔ (x ∈ c :: rest ∧ fails x = false) := by
                      constructor
                      · exact fun hh => ⟨List.mem_cons_of_mem _ hh.1, hh.2⟩
                      · intro hh
                        rcases List.mem_cons.mp hh.1 with hh' | hh'
                        · exact absurd hh' hxc
                        · exact ⟨hh', hh.2⟩
                    by_cases hx : x ∈ rest ∧ fails x = false
                    · rw [if_pos hx, if_pos (hiff.mp hx)]
                    · rw [if_neg hx, if_neg (fun hh => hx (hiff.mpr hh))]
            · intro y hy
              by_cases hyc : y = c
              · subst hyc
                simp [dictLookup_insert_self]
              · rw [dictLookup_insert_ne _ md hyc]
                exact hpres y (List.mem_cons_of_mem _ hy)

/-! ## Invariant preservation -/

theorem inv_empty : Inv emptyManager := by
  constructor <;> simp [emptyManager]

theorem inv_connect {m : ConnectionManager} {now ws : Nat} (hinv : Inv m)
    (hfresh : ws ∉ m.active_connections) {m' : ConnectionManager}
    (h : connect true now ws m = .ok m') : Inv m' := by
  obtain ⟨h1, h2, h3, h4⟩ := hinv
  have hm' : m' = ⟨m.active_connections ++ [ws],
      dictInsert ws ⟨now, 0⟩ m.connection_metadata⟩ := by
    simpa [connect] using h.symm
  have hknot : ws ∉ m.connection_metadata.map Prod.fst := by
    intro hk
    rcases List.mem_map.mp hk with ⟨p, hp, hpw⟩
    exact hfresh (hpw ▸ h4 p hp)
  have hkeys := dictInsert_keys_of_not_mem (⟨now, 0⟩ : ConnMeta) hknot
  subst hm'
  refine ⟨?_, ?_, ?_, ?_⟩
  · rw [List.nodup_append]
    exact ⟨h1, List.nodup_singleton ws,
      fun a ha hb => hfresh ((List.mem_singleton.mp hb) ▸ ha)⟩
  · rw [hkeys, List.nodup_append]
    exact ⟨h2, List.nodup_singleton ws,
      fun a ha hb => hknot ((List.mem_singleton.mp hb) ▸ ha)⟩
  · intro c hc
    rcases List.mem_append.mp hc with hc | hc
    · have hcw : c ≠ ws := fun hh => hfresh (hh ▸ hc)
      rw [dictLookup_insert_ne _ _ hcw]
      exact h3 c hc
    · rw [List.mem_singleton.mp hc, dictLookup_insert_self]
      rfl
  · intro p hp
    rcases dictInsert_mem hp with hp | hp
    · exact List.mem_append.mpr (Or.inl (h4 p hp))
    · exact List.mem_append.mpr (Or.inr (by simp [hp]))

theorem inv_disconnect {m : ConnectionManager} (ws : Nat) (hinv : Inv m) :
    Inv (disconnect ws m) := by
  obtain ⟨h1, h2, h3, h4⟩ := hinv
  by_cases hws : ws ∈ m.active_connections
  · rw [show disconnect ws m = ⟨m.active_connections.erase ws,
        dictErase ws m.connection_metadata⟩ by simp [disconnect, hws]]
    refine ⟨h1.erase ws, ?_, ?_, ?_⟩
    · rw [dictErase_keys]
      exact h2.erase ws
    · intro c hc
      have hc' := (List.Nodup.mem_erase_iff h1).mp hc
      rw [dictLookup_erase_ne _ hc'.1]
      exact h3 c hc'.2
    · intro p hp
      have hpm := dictErase_subset ws hp
      have hp1 : p.1 ≠ ws := by
        intro hh
        have : ws ∈ (dictErase ws m.connection_metadata).map Prod.fst :=
          List.mem_map.mpr ⟨p, hp, hh⟩
        rw [dictErase_keys] at this
        exact ((List.Nodup.mem_erase_iff h2).mp this).1 rfl
      exact (List.Nodup.mem_erase_iff h1).mpr ⟨hp1, h4 p hpm⟩
  · rw [show disconnect ws m = m by simp [disconnect, hws]]
    exact ⟨h1, h2, h3, h4⟩

theorem inv_send {m : ConnectionManager} (ok : Bool) (ws : Nat)
    (hinv : Inv m) : Inv (send_personal_message ok ws m) := by
  by_cases hok : ok
  · cases hlk : dictLookup ws m.connection_metadata with
    | none =>
        rw [show send_personal_message ok ws m = disconnect ws m by
          simp [send_personal_message, hok, hlk]]
        exact inv_disconnect ws hinv
    | some v =>
        obtain ⟨h1, h2, h3, h4⟩ := hinv
        have hmem : ws ∈ m.connection_metadata.map Prod.fst :=
          (dictLookup_isSome_iff_mem ws m.connection_metadata).mp
            (by simp [hlk])
        rw [show send_personal_message ok ws m
            = { m with connection_metadata :=
                (dictInsert ws ⟨v.connected_at, v.messages_sent + 1⟩
                  m.connection_metadata) } by
          simp [send_personal_message, hok, hlk]]
    -- the live list is untouched; the metadata keys are preserved
        refine ⟨h1, ?_, ?_, ?_⟩
        · rw [dictInsert_keys_of_mem _ hmem]
          exact h2
        · intro c hc
          by_cases hcw : c = ws
          · subst hcw
            rw [dictLookup_insert_self]
            rfl
          · rw [dictLookup_insert_ne _ _ hcw]
            exact h3 c hc
        · intro p hp
          rcases dictInsert_mem hp with hp | hp
          · exact h4 p hp
          · rw [hp]
            rcases List.mem_map.mp hmem with ⟨q, hq, hqw⟩
            exact hqw ▸ h4 q hq
  · rw [show send_personal_message ok ws m = disconnect ws m by
      simp [send_personal_message, hok]]
    exact inv_disconnect ws hinv

theorem inv_foldl_disconnect :
    ∀ (l : List Nat) (m : ConnectionManager), Inv m →
      Inv (l.foldl (fun st c => disconnect c st) m) := by
  intro l
  induction l with
  | nil => intro m h; exact h
  | cons c rest ih =>
      intro m h
      exact ih (disconnect c m) (inv_disconnect c h)

theorem inv_broadcast {m : ConnectionManager} (fails : Nat → Bool)
    (hinv : Inv m) : Inv (broadcast fails m) := by
  obtain ⟨h1, h2, h3, h4⟩ := hinv
  have hmid : Inv ⟨m.active_connections,
      (fanout fails m.active_connections m.connection_metadata []).1⟩ := by
    refine ⟨h1, ?_, ?_, ?_⟩
    · rw [fanout_keys]
      exact h2
    · intro c hc
      rw [dictLookup_isSome_iff_mem, fanout_keys]
      rw [← dictLookup_isSome_iff_mem]
      exact h3 c hc
    · intro p hp
      have : p.1 ∈ ((fanout fails m.active_connections
          m.connection_metadata []).1).map Prod.fst :=
        List.mem_map.mpr ⟨p, hp, rfl⟩
      rw [fanout_keys] at this
      rcases List.mem_map.mp this with ⟨q, hq, hqp⟩
      exact hqp ▸ h4 q hq
  exact inv_foldl_disconnect _ _ hmid

theorem inv_applyOp {m : ConnectionManager} {op : ROp} (hinv : Inv m)
    (hwf : ∀ now ws, op = ROp.register now ws →
      ws ∉ m.active_connections) : Inv (applyOp m op) := by
  cases op with
  | register now ws =>
      have h : connect true now ws m = .ok ⟨m.active_connections ++ [ws],
          dictInsert ws ⟨now, 0⟩ m.connection_metadata⟩ := by
        simp [connect]
      rw [show applyOp m (.register now ws)
          = ⟨m.active_connections ++ [ws],
             dictInsert ws ⟨now, 0⟩ m.connection_metadata⟩ by
        simp [applyOp, connect]]
      exact inv_connect hinv (hwf now ws rfl) h
  | registerFail ws => simpa [applyOp, connect] using hinv
  | unregister ws => exact inv_disconnect ws hinv
  | send ok ws => exact inv_send ok ws hinv
  | bcast failing => exact inv_broadcast _ hinv
  | stats => exact hinv

theorem inv_applyOps :
    ∀ (ops : List ROp) (m : ConnectionManager), Inv m →
      WFOps m ops = true → Inv (applyOps m ops) := by
  intro ops
  induction ops with
  | nil => intro m h _; exact h
  | cons op rest ih =>
      intro m h hwf
      rw [WFOps, Bool.and_eq_true] at hwf
      have hhead : ∀ now ws, op = ROp.register now ws →
          ws ∉ m.active_connections := by
        intro now ws hop
        have h1 := hwf.1
        rw [hop, regFresh] at h1
        simpa using h1
      exact ih (applyOp m op) (inv_applyOp h hhead) hwf.2

/-! ## Claim theorems -/

/-- C1 (counterexample).  The claim says that in a loop iteration whose
source fetch fails, no broadcast call is made.  On the code this is false:
`_collect_metrics` catches the fetch exception and returns a
`{timestamp, error}` payload, and the loop body, seeing one registered
connection, broadcasts that payload in the same iteration
(`broadcastMade = true`). -/
theorem fetch_failure_still_broadcasts :
    (collection_loop_iter (.error "boom") (fun _ => false) "t"
        ⟨[7], [(7, ⟨0, 0⟩)]⟩).broadcastMade = true := by
  rfl

/-- C1 (amended).  In an iteration whose source fetch raises, the loop
never terminates (`loopContinues`), and a broadcast is made exactly when
at least one connection is registered — carrying the error payload
`{timestamp, error}` rather than nothing. -/
theorem fetch_failure_iteration (e : String) (fails : Nat → Bool)
    (now : String) (m : ConnectionManager) :
    (collection_loop_iter (.error e) fails now m).loopContinues = true ∧
    (collection_loop_iter (.error e) fails now m).broadcastMade
      = decide (0 < get_connection_count m) ∧
    (collection_loop_iter (.error e) fails now m).payload
      = (if 0 < get_connection_count m then
          some [("timestamp", .str now), ("error", .str e)]
         else none) := by
  by_cases h : 0 < get_connection_count m <;>
    simp [collection_loop_iter, collect_metrics, h]

/-- C4.  `disconnect` on a handle outside the live set is a no-op: it
raises nothing (it is a total function), changes neither the live list nor
the bookkeeping dict, and leaves `get_connection_stats` unchanged. -/
theorem unregister_idempotent (m : ConnectionManager) (ws : Nat)
    (h : ws ∉ m.active_connections) :
    disconnect ws m = m ∧
    get_connection_stats (disconnect ws m) = get_connection_stats m := by
  have hd : disconnect ws m = m := by simp [disconnect, h]
  exact ⟨hd, by rw [hd]⟩

/-- C4 witness: a registry holding connections 1 and 3; unregistering the
absent connection 2 changes nothing. -/
theorem unregister_idempotent_witness :
    (2 : Nat) ∉ ([1, 3] : List Nat) ∧
    disconnect 2 ⟨[1, 3], [(1, ⟨0, 4⟩), (3, ⟨2, 1⟩)]⟩
      = ⟨[1, 3], [(1, ⟨0, 4⟩), (3, ⟨2, 1⟩)]⟩ :=
  ⟨by decide,
   (unregister_idempotent ⟨[1, 3], [(1, ⟨0, 4⟩), (3, ⟨2, 1⟩)]⟩ 2
      (by decide)).1⟩

/-- C7.  `connect` is atomic with respect to handshake failure: when the
`accept` handshake raises, the exception propagates with the registry
exactly as it was (no live-list entry, no bookkeeping entry); when the
handshake succeeds, the connection is live and its bookkeeping entry is
`{connected_at := now, messages_sent := 0}`. -/
theorem register_handshake_atomic (m : ConnectionManager) (now ws : Nat) :
    connect false now ws m = .error ("accept failed", m) ∧
    ∀ m', connect true now ws m = .ok m' →
      ws ∈ m'.active_connections ∧
      dictLookup ws m'.connection_metadata = some ⟨now, 0⟩ := by
  refine ⟨rfl, ?_⟩
  intro m' h
  have hm' : m' = ⟨m.active_connections ++ [ws],
      dictInsert ws ⟨now, 0⟩ m.connection_metadata⟩ := by
    simpa [connect] using h.symm
  subst hm'
  exact ⟨List.mem_append.mpr (Or.inr (List.mem_singleton.mpr rfl)),
    dictLookup_insert_self ws _ _⟩

/-- C7 witness: registering connection 5 into a one-connection registry. -/
theorem register_handshake_atomic_witness :
    (5 : Nat) ∈ ([1, 5] : List Nat) ∧
    dictLookup 5 (dictInsert 5 (⟨9, 0⟩ : ConnMeta) [(1, ⟨0, 2⟩)])
      = some ⟨9, 0⟩ :=
  (register_handshake_atomic ⟨[1], [(1, ⟨0, 2⟩)]⟩ 9 5).2
    ⟨[1, 5], dictInsert 5 ⟨9, 0⟩ [(1, ⟨0, 2⟩)]⟩ rfl

/-- C8.  On a successful fetch, the snapshot built by `_collect_metrics`
contains every one of the six metric fields, each equal to the source's
value when the source provides it and zero when it is missing. -/
theorem collect_metrics_defaults (now : String) (ov : List (String × Int))
    (k : String)
    (hk : k ∈ ["request_rate", "error_rate", "p50_latency", "p95_latency",
               "p99_latency", "active_connections"]) :
    dictLookup k (collect_metrics now (.ok ov))
      = some (.num ((dictLookup k ov).getD 0)) := by
  fin_cases hk <;> simp [collect_metrics, dictLookup]

/-- C8 witness: a source snapshot carrying only `request_rate = 42`; the
built snapshot carries the source value for `request_rate` and the zero
default for the missing `error_rate`. -/
theorem collect_metrics_defaults_witness :
    ("request_rate" ∈ ["request_rate", "error_rate", "p50_latency",
        "p95_latency", "p99_latency", "active_connections"] ∧
      dictLookup "request_rate"
        (collect_metrics "t" (.ok [("request_rate", 42)]))
        = some (.num ((dictLookup "request_rate"
            [("request_rate", (42 : Int))]).getD 0))) ∧
    dictLookup "error_rate" (collect_metrics "t" (.ok [("request_rate", 42)]))
      = some (.num ((dictLookup "error_rate"
          [("request_rate", (42 : Int))]).getD 0)) :=
  ⟨⟨by decide,
    collect_metrics_defaults "t" [("request_rate", 42)] "request_rate"
      (by decide)⟩,
   collect_metrics_defaults "t" [("request_rate", 42)] "error_rate"
     (by decide)⟩

/-- C5.  Lifecycle invariant and idempotence: after any sequence of
`start`/`stop` calls from a fresh collector, the number of live loop tasks
is 1 when `is_running` and 0 otherwise; a second `start` is a no-op
(`start ∘ start = start` on every state); and after two successive
`start` calls one single `stop` leaves zero active tasks and a stopped
collector. -/
theorem collector_lifecycle_invariant (ops : List LOp) :
    (applyLOps collectorInit ops).activeTasks
      = (if (applyLOps collectorInit ops).is_running then 1 else 0) ∧
    (∀ c : MetricsCollector, startCollector (startCollector c)
      = startCollector c) ∧
    (stopCollector (startCollector (startCollector collectorInit))).activeTasks
      = 0 ∧
    (stopCollector (startCollector (startCollector collectorInit))).is_running
      = false := by
  refine ⟨?_, ?_, rfl, rfl⟩
  · have key : ∀ (l : List LOp) (c : MetricsCollector),
        (c.activeTasks = if c.is_running then 1 else 0) →
        (c.task = false → c.activeTasks = 0) →
        (applyLOps c l).activeTasks
            = (if (applyLOps c l).is_running then 1 else 0) ∧
          ((applyLOps c l).task = false → (applyLOps c l).activeTasks = 0) := by
      intro l
      induction l with
      | nil => intro c h1 h2; exact ⟨h1, h2⟩
      | cons op rest ih =>
          intro c h1 h2
          cases op with
          | start =>
              by_cases hr : c.is_running
              · have : applyLOp c .start = c := by
                  simp [applyLOp, startCollector, hr]
                rw [show applyLOps c (LOp.start :: rest)
                    = applyLOps (applyLOp c .start) rest from rfl, this]
                exact ih c h1 h2
              · have : applyLOp c .start = ⟨true, true, c.activeTasks + 1⟩ := by
                  simp [applyLOp, startCollector, hr]
                rw [show applyLOps c (LOp.start :: rest)
                    = applyLOps (applyLOp c .start) rest from rfl, this]
                refine ih _ ?_ ?_
                · simp [h1, hr]
                · intro hf
                  simp at hf
          | stop =>
              rw [show applyLOps c (LOp.stop :: rest)
                  = applyLOps (applyLOp c .stop) rest from rfl]
              by_cases ht : c.task
              · refine ih _ ?_ ?_
                · by_cases hr : c.is_running
                  · simp [applyLOp, stopCollector, ht, h1, hr]
                  · simp [applyLOp, stopCollector, ht, h1, hr]
                · intro _
                  by_cases hr : c.is_running
                  · simp [applyLOp, stopCollector, ht, h1, hr]
                  · simp [applyLOp, stopCollector, ht, h1, hr]
              · have hz := h2 (by simpa using ht)
                refine ih _ ?_ ?_
                · simp [applyLOp, stopCollector, ht, hz]
                · intro _
                  simp [applyLOp, stopCollector, ht, hz]

    exact (key ops collectorInit rfl (fun _ => rfl)).1
  · intro c
    by_cases hr : c.is_running
    · simp [startCollector, hr]
    · simp [startCollector, hr]

/-- In a duplicate-free list containing `f`, exactly the single occurrence
of `f` satisfies the test `(· == f)`. -/
theorem filter_beq_of_nodup :
    ∀ {l : List Nat} {f : Nat}, l.Nodup → f ∈ l →
      l.filter (fun c => c == f) = [f] := by
  intro l
  induction l with
  | nil => intro f _ h; simp at h
  | cons a rest ih =>
      intro f hnd hf
      have hnd' := List.nodup_cons.mp hnd
      rcases List.mem_cons.mp hf with h | h
      · subst h
        have hrest : rest.filter (fun c => c == f) = [] :=
          List.filter_eq_nil_iff.mpr
            (fun x hx => by
              simp only [beq_iff_eq]
              exact fun hh => hnd'.1 (hh ▸ hx))
        simp [List.filter_cons, hrest]
      · have haf : ¬(a == f) = true := by
          simp only [beq_iff_eq]
          exact fun hh => hnd'.1 (hh.symm ▸ h)
        simp [List.filter_cons, haf, ih hnd'.2 h]

/-- C2.  `broadcast` on a registry with live set `N = active_connections`
in which exactly the send to `f` fails (`fails = (· == f)`, `f` live):
every other live connection's counter increases by exactly one; the
fan-out collects `f` for removal exactly once (`disconnected = [f]`); `f`
ends up outside the live set with no bookkeeping entry; the subsequent
stats read shows `N - 1` active connections; and every connection live at
call start is either delivered-to or removed. -/
theorem broadcast_single_failure (m : ConnectionManager) (f : Nat)
    (hinv : Inv m) (hf : f ∈ m.active_connections) :
    (∀ c ∈ m.active_connections, c ≠ f →
       ∃ v, dictLookup c m.connection_metadata = some v ∧
         dictLookup c (broadcast (fun x => x == f) m).connection_metadata
           = some ⟨v.connected_at, v.messages_sent + 1⟩) ∧
    (fanout (fun x => x == f) m.active_connections
        m.connection_metadata []).2 = [f] ∧
    f ∉ (broadcast (fun x => x == f) m).active_connections ∧
    dictLookup f (broadcast (fun x => x == f) m).connection_metadata
      = none ∧
    (get_connection_stats
        (broadcast (fun x => x == f) m)).active_connections
      = m.active_connections.length - 1 ∧
    (∀ c ∈ m.active_connections,
       (∃ v w, dictLookup c m.connection_metadata = some v ∧
          dictLookup c (broadcast (fun x => x == f) m).connection_metadata
            = some w ∧ w.messages_sent = v.messages_sent + 1) ∨
       c ∉ (broadcast (fun x => x == f) m).active_connections) ∧
    dictLookup f (fanout (fun x => x == f) m.active_connections
        m.connection_metadata []).1
      = dictLookup f m.connection_metadata := by
  obtain ⟨h1, h2, h3, h4⟩ := hinv
  have hdisc : (fanout (fun x => x == f) m.active_connections
      m.connection_metadata []).2 = [f] := by
    rw [fanout_disc _ _ _ _ h3, List.nil_append, filter_beq_of_nodup h1 hf]
  have hmd := fanout_lookup (fun x => x == f) m.active_connections
    m.connection_metadata [] h2 h1 h3
  have hkeys := fanout_keys (fun x => x == f) m.active_connections
    m.connection_metadata []
  have hbr : broadcast (fun x => x == f) m
      = ⟨m.active_connections.erase f,
         dictErase f (fanout (fun x => x == f) m.active_connections
           m.connection_metadata []).1⟩ := by
    rw [show broadcast (fun x => x == f) m
        = ((fanout (fun x => x == f) m.active_connections
              m.connection_metadata []).2).foldl
            (fun st c => disconnect c st)
            ⟨m.active_connections,
             (fanout (fun x => x == f) m.active_connections
               m.connection_metadata []).1⟩ from rfl]
    rw [hdisc]
    simp only [List.foldl_cons, List.foldl_nil]
    simp [disconnect, hf]
  have hdeliver : ∀ c ∈ m.active_connections, c ≠ f →
      ∃ v, dictLookup c m.connection_metadata = some v ∧
        dictLookup c (broadcast (fun x => x == f) m).connection_metadata
          = some ⟨v.connected_at, v.messages_sent + 1⟩ := by
    intro c hc hcf
    obtain ⟨v, hv⟩ := Option.isSome_iff_exists.mp (h3 c hc)
    refine ⟨v, hv, ?_⟩
    rw [hbr]
    rw [show (ConnectionManager.mk (m.active_connections.erase f)
        (dictErase f (fanout (fun x => x == f) m.active_connections
          m.connection_metadata []).1)).connection_metadata
      = dictErase f (fanout (fun x => x == f) m.active_connections
          m.connection_metadata []).1 from rfl]
    rw [dictLookup_erase_ne _ hcf, hmd c, hv]
    have hcond : c ∈ m.active_connections ∧ ((c == f) = false) :=
      ⟨hc, by simpa using hcf⟩
    simp only [Option.map_some']
    rw [if_pos hcond]
  refine ⟨hdeliver, hdisc, ?_, ?_, ?_, ?_, ?_⟩
  · rw [hbr]
    intro hcon
    exact ((List.Nodup.mem_erase_iff h1).mp hcon).1 rfl
  · rw [hbr]
    exact dictLookup_erase_self (by rw [hkeys]; exact h2)
  · rw [hbr, get_connection_stats]
    exact List.length_erase_of_mem hf
  · intro c hc
    by_cases hcf : c = f
    · right
      rw [hbr, hcf]
      intro hcon
      exact ((List.Nodup.mem_erase_iff h1).mp hcon).1 rfl
    · left
      obtain ⟨v, hv, hv'⟩ := hdeliver c hc hcf
      exact ⟨v, ⟨v.connected_at, v.messages_sent + 1⟩, hv, hv', rfl⟩
  · rw [hmd f]
    cases dictLookup f m.connection_metadata with
    | none => rfl
    | some v =>
        simp only [Option.map_some']
        rw [if_neg (fun hc => by simpa using hc.2)]

/-- C2 witness: three live connections 1, 2, 3 with counters 0, 5, 2; the
send to 2 fails; the fan-out collects exactly `[2]` and afterwards two
connections remain. -/
theorem broadcast_single_failure_witness :
    (Inv ⟨[1, 2, 3], [(1, ⟨0, 0⟩), (2, ⟨0, 5⟩), (3, ⟨0, 2⟩)]⟩ ∧
      (2 : Nat) ∈ ([1, 2, 3] : List Nat)) ∧
    (fanout (fun x => x == 2) [1, 2, 3]
        [(1, ⟨0, 0⟩), (2, ⟨0, 5⟩), (3, ⟨0, 2⟩)] []).2 = [2] ∧
    (get_connection_stats (broadcast (fun x => x == 2)
        ⟨[1, 2, 3], [(1, ⟨0, 0⟩), (2, ⟨0, 5⟩), (3, ⟨0, 2⟩)]⟩)).active_connections
      = ([1, 2, 3] : List Nat).length - 1 :=
  ⟨⟨by decide, by decide⟩,
   (broadcast_single_failure
      ⟨[1, 2, 3], [(1, ⟨0, 0⟩), (2, ⟨0, 5⟩), (3, ⟨0, 2⟩)]⟩ 2
      (by decide) (by decide)).2.1,
   (broadcast_single_failure
      ⟨[1, 2, 3], [(1, ⟨0, 0⟩), (2, ⟨0, 5⟩), (3, ⟨0, 2⟩)]⟩ 2
      (by decide) (by decide)).2.2.2.2.1⟩

/-- All `messages_sent` counters in the registry are zero (the case after
traces that never send). -/
def AllZero (m : ConnectionManager) : Prop :=
  ∀ p ∈ m.connection_metadata, p.2.messages_sent = 0

/-- Under the registry invariant, the live list and the metadata key list
have the same members. -/
theorem inv_mem_iff {m : ConnectionManager} (hinv : Inv m) (c : Nat) :
    c ∈ m.active_connections ↔ c ∈ m.connection_metadata.map Prod.fst := by
  obtain ⟨h1, h2, h3, h4⟩ := hinv
  constructor
  · intro hc
    exact (dictLookup_isSome_iff_mem c _).mp (h3 c hc)
  · intro hc
    rcases List.mem_map.mp hc with ⟨p, hp, hpc⟩
    exact hpc ▸ h4 p hp

/-- Under the registry invariant, summing `messages_sent` over the
metadata dict equals summing the per-connection lookups over the live
list (the two enumerate the same connections, each exactly once). -/
theorem sum_counters_eq {m : ConnectionManager} (hinv : Inv m) :
    (m.connection_metadata.map (fun p => p.2.messages_sent)).sum
      = (m.active_connections.map (fun c =>
          match dictLookup c m.connection_metadata with
          | some v => v.messages_sent
          | none => 0)).sum := by
  obtain ⟨h1, h2, h3, h4⟩ := hinv
  have hstep : m.connection_metadata.map (fun p => p.2.messages_sent)
      = m.connection_metadata.map (fun p =>
          match dictLookup p.1 m.connection_metadata with
          | some v => v.messages_sent
          | none => 0) := by
    refine List.map_congr_left ?_
    intro p hp
    rcases p with ⟨a, b⟩
    rw [dictLookup_of_mem_nodup h2 hp]
  have hcomp : m.connection_metadata.map (fun p =>
      match dictLookup p.1 m.connection_metadata with
      | some v => v.messages_sent
      | none => 0)
      = (m.connection_metadata.map Prod.fst).map (fun c =>
          match dictLookup c m.connection_metadata with
          | some v => v.messages_sent
          | none => 0) := by
    rw [List.map_map]
    rfl
  have hperm : (m.connection_metadata.map Prod.fst).Perm
      m.active_connections :=
    (List.perm_ext_iff_of_nodup h2 h1).mpr
      (fun a => (inv_mem_iff ⟨h1, h2, h3, h4⟩ a).symm)
  rw [hstep, hcomp]
  exact (hperm.map _).sum_eq

/-- Characterization of register/unregister-only traces: the invariant
holds, all counters stay zero, and the live list is exactly the
"registered and not yet unregistered" list read off the trace. -/
theorem regUnreg_char :
    ∀ (ops : List ROp) (m : ConnectionManager),
      regUnregOnly ops = true → WFOps m ops = true → Inv m → AllZero m →
      Inv (applyOps m ops) ∧ AllZero (applyOps m ops) ∧
        (applyOps m ops).active_connections
          = specLive m.active_connections ops := by
  intro ops
  induction ops with
  | nil => intro m _ _ hinv hz; exact ⟨hinv, hz, rfl⟩
  | cons op rest ih =>
      intro m hru hwf hinv hz
      rw [show regUnregOnly (op :: rest)
          = (isRegUnreg op && regUnregOnly rest) from rfl,
        Bool.and_eq_true] at hru
      rw [WFOps, Bool.and_eq_true] at hwf
      cases op with
      | register now ws =>
          have hfresh : ws ∉ m.active_connections := by
            have h1 := hwf.1
            rw [regFresh] at h1
            simpa using h1
          have hstate : applyOp m (.register now ws)
              = ⟨m.active_connections ++ [ws],
                 dictInsert ws ⟨now, 0⟩ m.connection_metadata⟩ := by
            simp [applyOp, connect]
          have hinv' : Inv (applyOp m (.register now ws)) :=
            inv_applyOp hinv (fun _ _ h => by
              injection h with h1 h2
              exact h2 ▸ hfresh)
          have hz' : AllZero (applyOp m (.register now ws)) := by
            rw [hstate]
            intro p hp
            rcases dictInsert_mem hp with hp | hp
            · exact hz p hp
            · rw [hp]
          have := ih (applyOp m (.register now ws)) hru.2 hwf.2 hinv' hz'
          refine ⟨this.1, this.2.1, ?_⟩
          rw [show applyOps m (ROp.register now ws :: rest)
              = applyOps (applyOp m (.register now ws)) rest from rfl]
          rw [this.2.2, hstate]
          rfl
      | registerFail ws =>
          have hstate : applyOp m (.registerFail ws) = m := by
            simp [applyOp, connect]
          have := ih (applyOp m (.registerFail ws)) hru.2 hwf.2
            (hstate ▸ hinv) (hstate ▸ hz)
          refine ⟨this.1, this.2.1, ?_⟩
          rw [show applyOps m (ROp.registerFail ws :: rest)
              = applyOps (applyOp m (.registerFail ws)) rest from rfl]
          rw [this.2.2, hstate]
          rfl
      | unregister ws =>
          have hact : (applyOp m (.unregister ws)).active_connections
              = m.active_connections.erase ws := by
            by_cases hws : ws ∈ m.active_connections
            · simp [applyOp, disconnect, hws]
            · rw [show applyOp m (.unregister ws) = m by
                simp [applyOp, disconnect, hws]]
              exact (List.erase_of_not_mem hws).symm
          have hinv' : Inv (applyOp m (.unregister ws)) :=
            inv_applyOp hinv (fun _ _ h => by cases h)
          have hz' : AllZero (applyOp m (.unregister ws)) := by
            intro p hp
            by_cases hws : ws ∈ m.active_connections
            · rw [show applyOp m (.unregister ws)
                  = ⟨m.active_connections.erase ws,
                     dictErase ws m.connection_metadata⟩ by
                simp [applyOp, disconnect, hws]] at hp
              exact hz p (dictErase_subset ws hp)
            · rw [show applyOp m (.unregister ws) = m by
                simp [applyOp, disconnect, hws]] at hp
              exact hz p hp
          have := ih (applyOp m (.unregister ws)) hru.2 hwf.2 hinv' hz'
          refine ⟨this.1, this.2.1, ?_⟩
          rw [show applyOps m (ROp.unregister ws :: rest)
              = applyOps (applyOp m (.unregister ws)) rest from rfl]
          rw [this.2.2, hact]
          rfl
      | send ok ws => simp [isRegUnreg] at hru
      | bcast failing => simp [isRegUnreg] at hru
      | stats => simp [isRegUnreg] at hru

/-- C3.  After any well-formed sequence of register/unregister calls from
a fresh registry, `get_connection_stats` reports exactly the number of
registered-but-not-yet-unregistered connections and the sum of their
`messages_sent` counters; and a `stats` call itself changes no registry
state. -/
theorem stats_track_live_set (ops : List ROp)
    (hru : regUnregOnly ops = true)
    (hwf : WFOps emptyManager ops = true) :
    get_connection_stats (applyOps emptyManager ops)
      = ⟨(specLive [] ops).length,
         ((specLive [] ops).map (fun c =>
            match dictLookup c
                (applyOps emptyManager ops).connection_metadata with
            | some v => v.messages_sent
            | none => 0)).sum⟩ ∧
    applyOps emptyManager (ops ++ [.stats]) = applyOps emptyManager ops := by
  obtain ⟨hinv, hz, hact⟩ := regUnreg_char ops emptyManager hru hwf inv_empty
    (fun p hp => by simp [emptyManager] at hp)
  have hact' : (applyOps emptyManager ops).active_connections
      = specLive [] ops := hact
  constructor
  · have hs1 : ((applyOps emptyManager ops).connection_metadata.map
        (fun p => p.2.messages_sent)).sum = 0 :=
      List.sum_eq_zero (fun x hx => by
        rcases List.mem_map.mp hx with ⟨p, hp, hpx⟩
        rw [← hpx]
        exact hz p hp)
    have hs2 : ((specLive [] ops).map (fun c =>
        match dictLookup c
            (applyOps emptyManager ops).connection_metadata with
        | some v => v.messages_sent
        | none => 0)).sum = 0 :=
      List.sum_eq_zero (fun x hx => by
        rcases List.mem_map.mp hx with ⟨c, hc, hcx⟩
        rw [← hcx]
        cases hlk : dictLookup c
            (applyOps emptyManager ops).connection_metadata with
        | none => rfl
        | some v => exact hz (c, v) (dictLookup_mem hlk))
    rw [get_connection_stats, hact', hs1, hs2]
  · rw [applyOps, applyOps, List.foldl_append]
    rfl

/-- C3 witness: register 4 and 6, unregister 4 — stats reports one live
connection and zero messages sent. -/
theorem stats_track_live_set_witness :
    (regUnregOnly [ROp.register 0 4, .register 1 6, .unregister 4] = true ∧
      WFOps emptyManager
        [ROp.register 0 4, .register 1 6, .unregister 4] = true) ∧
    get_connection_stats (applyOps emptyManager
        [ROp.register 0 4, .register 1 6, .unregister 4])
      = ⟨(specLive [] [ROp.register 0 4, .register 1 6, .unregister 4]).length,
         ((specLive [] [ROp.register 0 4, .register 1 6, .unregister 4]).map
            (fun c => match dictLookup c (applyOps emptyManager
                [ROp.register 0 4, .register 1 6,
                 .unregister 4]).connection_metadata with
              | some v => v.messages_sent
              | none => 0)).sum⟩ :=
  ⟨⟨by decide, by decide⟩,
   (stats_track_live_set [ROp.register 0 4, .register 1 6, .unregister 4]
      (by decide) (by decide)).1⟩

/-- C10.  After every well-formed operation sequence (register with fresh
handles, unregister, send, broadcast, stats), the live list and the
metadata key set contain exactly the same connections, each key appearing
exactly once; consequently the `total_messages_sent` sum ranges over
exactly the live connections. -/
theorem registry_metadata_sync (ops : List ROp)
    (hwf : WFOps emptyManager ops = true) :
    (∀ c, c ∈ (applyOps emptyManager ops).active_connections ↔
        c ∈ ((applyOps emptyManager ops).connection_metadata.map
          Prod.fst)) ∧
    ((applyOps emptyManager ops).connection_metadata.map Prod.fst).Nodup ∧
    (get_connection_stats (applyOps emptyManager ops)).total_messages_sent
      = ((applyOps emptyManager ops).active_connections.map (fun c =>
          match dictLookup c
              (applyOps emptyManager ops).connection_metadata with
          | some v => v.messages_sent
          | none => 0)).sum := by
  have hinv : Inv (applyOps emptyManager ops) :=
    inv_applyOps ops emptyManager inv_empty hwf
  exact ⟨inv_mem_iff hinv, hinv.2.1, sum_counters_eq hinv⟩

/-- C10 witness: register 1 and 2, send one message to 2, broadcast with
the send to 1 failing — the key set tracks the live set and the sum
ranges over the live connections. -/
theorem registry_metadata_sync_witness :
    WFOps emptyManager
      [ROp.register 0 1, .register 0 2, .send true 2, .bcast [1]] = true ∧
    ∀ c, c ∈ (applyOps emptyManager
        [ROp.register 0 1, .register 0 2, .send true 2,
         .bcast [1]]).active_connections ↔
      c ∈ ((applyOps emptyManager
        [ROp.register 0 1, .register 0 2, .send true 2,
         .bcast [1]]).connection_metadata.map Prod.fst) :=
  ⟨by decide,
   (registry_metadata_sync
      [ROp.register 0 1, .register 0 2, .send true 2, .bcast [1]]
      (by decide)).1⟩

deriving instance Fintype for PC

deriving instance Fintype for Ctrl

deriving instance Fintype for Label

deriving instance Fintype for Sys

/-- While a `stop()` call is suspended awaiting the task, the `is_running`
flag is already cleared and cancellation has been signalled (stop performs
both before its await). -/
def SysInv (s : Sys) : Prop :=
  s.ctrl = .stopping → (s.running = false ∧ s.cancelRequested = true)

instance (s : Sys) : Decidable (SysInv s) := by
  unfold SysInv; infer_instance

/-- A fully stopped system: flag cleared, cancellation latched, and the
loop task terminated (or never created). -/
def Quiet (s : Sys) : Prop :=
  s.running = false ∧ s.cancelRequested = true ∧
    (s.pc = .done ∨ s.pc = .notStarted)

instance (s : Sys) : Decidable (Quiet s) := by
  unfold Quiet; infer_instance

/-- Every enabled step preserves `SysInv` (finite state space, checked
exhaustively). -/
theorem sysStep_inv :
    ∀ (s : Sys) (l : Label) (s' : Sys),
      SysInv s → sysStep s l = some s' → SysInv s' := by
  decide

/-- A `stopRet` step from an invariant state lands in a `Quiet` state:
stop returns only once the task is terminated. -/
theorem stopRet_quiet :
    ∀ (s s' : Sys), SysInv s → sysStep s .stopRet = some s' → Quiet s' := by
  decide

/-- From a `Quiet` state, any enabled step other than `startCall` keeps
the system `Quiet`. -/
theorem quiet_step :
    ∀ (s : Sys) (l : Label) (s' : Sys),
      Quiet s → l ≠ .startCall → sysStep s l = some s' → Quiet s' := by
  decide

/-- In a `Quiet` state no fetch step is enabled: the task has terminated
and cannot reach the source again. -/
theorem quiet_no_fetch :
    ∀ (s s' : Sys), Quiet s → ¬sysStep s Label.fetchEv = some s' := by
  decide

/-- In a `Quiet` state no broadcast step is enabled. -/
theorem quiet_no_broadcast :
    ∀ (s s' : Sys), Quiet s → ¬sysStep s Label.broadcastEv = some s' := by
  decide

/-- `SysInv` is preserved along any run. -/
theorem sysRun_inv :
    ∀ (ls : List Label) (s s' : Sys),
      SysInv s → sysRun s ls = some s' → SysInv s' := by
  intro ls
  induction ls with
  | nil =>
      intro s s' hi h
      rw [sysRun] at h
      injection h with h
      exact h ▸ hi
  | cons l rest ih =>
      intro s s' hi h
      rw [sysRun] at h
      cases hs : sysStep s l with
      | none => rw [hs] at h; cases h
      | some s1 =>
          rw [hs] at h
          exact ih s1 s' (sysStep_inv s l s1 hi hs) h

/-- A run from a `Quiet` state that never calls `start` contains no fetch
and no broadcast. -/
theorem quiet_run :
    ∀ (ls : List Label) (s s' : Sys),
      Quiet s → sysRun s ls = some s' → Label.startCall ∉ ls →
      Label.fetchEv ∉ ls ∧ Label.broadcastEv ∉ ls := by
  intro ls
  induction ls with
  | nil => intro s s' _ _ _; exact ⟨List.not_mem_nil _, List.not_mem_nil _⟩
  | cons l rest ih =>
      intro s s' hq h hns
      rw [sysRun] at h
      cases hs : sysStep s l with
      | none => rw [hs] at h; cases h
      | some s1 =>
          rw [hs] at h
          have hl : l ≠ .startCall :=
            fun hh => hns (hh ▸ List.mem_cons_self _ _)
          have hq1 := quiet_step s l s1 hq hl hs
          have hf : l ≠ .fetchEv := by
            intro hh
            exact quiet_no_fetch s s1 hq (hh ▸ hs)
          have hb : l ≠ .broadcastEv := by
            intro hh
            exact quiet_no_broadcast s s1 hq (hh ▸ hs)
          have hns' : Label.startCall ∉ rest :=
            fun hh => hns (List.mem_cons_of_mem _ hh)
          obtain ⟨hf', hb'⟩ := ih s1 s' hq1 h hns'
          constructor
          · intro hmem
            rcases List.mem_cons.mp hmem with hh | hh
            · exact hf hh.symm
            · exact hf' hh
          · intro hmem
            rcases List.mem_cons.mp hmem with hh | hh
            · exact hb hh.symm
            · exact hb' hh

/-- C6.  `stop()` returns only after the loop task has terminated: in any
execution from the initial system state, once a `stopRet` step has
occurred, no fetch and no broadcast step occurs until a subsequent
`startCall`. -/
theorem no_poll_after_stop (ls1 : List Label) (s1 s2 s3 : Sys)
    (ls2 : List Label)
    (h1 : sysRun sysInit ls1 = some s1)
    (h2 : sysStep s1 .stopRet = some s2)
    (h3 : sysRun s2 ls2 = some s3)
    (h4 : Label.startCall ∉ ls2) :
    Label.fetchEv ∉ ls2 ∧ Label.broadcastEv ∉ ls2 := by
  have hi0 : SysInv sysInit := by decide
  have hi1 : SysInv s1 := sysRun_inv ls1 sysInit s1 hi0 h1
  have hq : Quiet s2 := stopRet_quiet s1 s2 hi1 h2
  exact quiet_run ls2 s2 s3 hq h3 h4

/-- C6 witness: start the collector, call stop (which cancels), let the
task observe the cleared flag and terminate, return from stop; the
subsequent stop-call/stop-return steps contain no fetch and no
broadcast. -/
theorem no_poll_after_stop_witness :
    (sysRun sysInit [Label.startCall, .stopCall, .tau]
        = some ⟨false, true, .done, .stopping⟩ ∧
      sysStep ⟨false, true, .done, .stopping⟩ .stopRet
        = some ⟨false, true, .done, .idle⟩ ∧
      sysRun ⟨false, true, .done, .idle⟩ [Label.stopCall, .stopRet]
        = some ⟨false, true, .done, .idle⟩ ∧
      Label.startCall ∉ [Label.stopCall, Label.stopRet]) ∧
    Label.fetchEv ∉ [Label.stopCall, Label.stopRet] ∧
    Label.broadcastEv ∉ [Label.stopCall, Label.stopRet] :=
  ⟨⟨by decide, by decide, by decide, by decide⟩,
   no_poll_after_stop [Label.startCall, .stopCall, .tau]
     ⟨false, true, .done, .stopping⟩ ⟨false, true, .done, .idle⟩
     ⟨false, true, .done, .idle⟩ [Label.stopCall, .stopRet]
     (by decide) (by decide) (by decide) (by decide)⟩

/-- C9 (counterexample).  The claim says `broadcast` iterates a stable
copy of the live set taken at call start, so that a concurrent
register/unregister never affects the in-flight iteration.  On the code
this is false: the `for` loop iterates `self.active_connections` itself.
Concretely, with live list `[1, 2]`, the fan-out starts the send to
connection 1; while that send is suspended, another task unregisters
connection 1, shifting connection 2 into the slot the cursor has already
passed; the iterator then sees the end of the list, so connection 2 —
live at call start and still live at call end — is never sent to
(`attempted = [1]`) and never removed, and its counter stays 0. -/
theorem broadcast_no_snapshot_counterexample :
    (2 : Nat) ∈ (ConnectionManager.mk [1, 2] [(1, ⟨0, 0⟩), (2, ⟨0, 0⟩)]
        ).active_connections ∧
    iterDone (bRun ⟨[1, 2], [(1, ⟨0, 0⟩), (2, ⟨0, 0⟩)]⟩
        [.next, .envDisconnect 1, .resolve true]) = true ∧
    (2 : Nat) ∉ (bRun ⟨[1, 2], [(1, ⟨0, 0⟩), (2, ⟨0, 0⟩)]⟩
        [.next, .envDisconnect 1, .resolve true]).attempted ∧
    (2 : Nat) ∈ (bFinish (bRun ⟨[1, 2], [(1, ⟨0, 0⟩), (2, ⟨0, 0⟩)]⟩
        [.next, .envDisconnect 1, .resolve true])).active_connections ∧
    dictLookup 2 (bFinish (bRun ⟨[1, 2], [(1, ⟨0, 0⟩), (2, ⟨0, 0⟩)]⟩
        [.next, .envDisconnect 1, .resolve true])).connection_metadata
      = some ⟨0, 0⟩ := by
  decide

/-- C9 (amended).  `broadcast` iterates the live list in place rather
than a snapshot copy; what it does guarantee is that the fan-out itself
never mutates the list mid-iteration (removals of failed connections are
deferred to after the loop).  Formally: in any interleaving without
concurrent registry calls, the live list is unchanged throughout the
fan-out, the sends attempted are exactly the prefix of the start list up
to the cursor, and a completed fan-out has attempted exactly the start
list.  (The counterexample shows this breaks when a concurrent
`disconnect` runs during a send.) -/
theorem broadcast_iterates_live_list (m : ConnectionManager)
    (sched : List BAct) (h : noEnvAct sched = true) :
    (bRun m sched).manager.active_connections = m.active_connections ∧
    (bRun m sched).attempted
      = m.active_connections.take (bRun m sched).idx ∧
    (iterDone (bRun m sched) = true →
      (bRun m sched).attempted = m.active_connections) := by
  have aux : ∀ (sched' : List BAct) (st : BState),
      noEnvAct sched' = true →
      st.manager.active_connections = m.active_connections →
      st.attempted = m.active_connections.take st.idx →
      (sched'.foldl bStep st).manager.active_connections
          = m.active_connections ∧
        (sched'.foldl bStep st).attempted
          = m.active_connections.take (sched'.foldl bStep st).idx := by
    intro sched'
    induction sched' with
    | nil => intro st _ h1 h2; exact ⟨h1, h2⟩
    | cons a rest ih =>
        intro st hn h1 h2
        cases a with
        | next =>
            have hn' : noEnvAct rest = true := hn
            rw [show (BAct.next :: rest).foldl bStep st
                = rest.foldl bStep (bStep st .next) from rfl]
            cases hp : st.pending with
            | some c =>
                have hb : bStep st .next = st := by
                  simp [bStep, hp]
                rw [hb]
                exact ih st hn' h1 h2
            | none =>
                cases hg : st.manager.active_connections[st.idx]? with
                | some c =>
                    have hb : bStep st .next
                        = ⟨st.manager, st.idx + 1, some c, st.disconnected,
                           st.attempted ++ [c]⟩ := by
                      simp [bStep, hp, hg]
                    rw [hb]
                    refine ih _ hn' h1 ?_
                    rw [show (BState.mk st.manager (st.idx + 1) (some c)
                        st.disconnected (st.attempted ++ [c])).attempted
                      = st.attempted ++ [c] from rfl]
                    rw [h2, List.take_succ]
                    rw [← h1, hg]
                    rfl
                | none =>
                    have hb : bStep st .next = st := by
                      simp [bStep, hp, hg]
                    rw [hb]
                    exact ih st hn' h1 h2
        | resolve ok =>
            have hn' : noEnvAct rest = true := hn
            rw [show (BAct.resolve ok :: rest).foldl bStep st
                = rest.foldl bStep (bStep st (.resolve ok)) from rfl]
            cases hp : st.pending with
            | none =>
                have hb : bStep st (.resolve ok) = st := by
                  simp [bStep, hp]
                rw [hb]
                exact ih st hn' h1 h2
            | some c =>
                by_cases hok : ok
                · cases hlk : dictLookup c st.manager.connection_metadata with
                  | some v =>
                      have hb : bStep st (.resolve ok)
                          = ⟨{ st.manager with connection_metadata :=
                                (dictInsert c
                                  ⟨v.connected_at, v.messages_sent + 1⟩
                                  st.manager.connection_metadata) },
                             st.idx, none, st.disconnected, st.attempted⟩ := by
                        simp [bStep, hp, hok, hlk]
                      rw [hb]
                      exact ih _ hn' h1 h2
                  | none =>
                      have hb : bStep st (.resolve ok)
                          = ⟨st.manager, st.idx, none,
                             st.disconnected ++ [c], st.attempted⟩ := by
                        simp [bStep, hp, hok, hlk]
                      rw [hb]
                      exact ih _ hn' h1 h2
                · have hb : bStep st (.resolve ok)
                      = ⟨st.manager, st.idx, none,
                         st.disconnected ++ [c], st.attempted⟩ := by
                    simp [bStep, hp, hok]
                  rw [hb]
                  exact ih _ hn' h1 h2
        | envDisconnect ws =>
            rw [show noEnvAct (BAct.envDisconnect ws :: rest)
                = false from rfl] at hn
            cases hn
  obtain ⟨h1, h2⟩ := aux sched (bInit m) h rfl (by simp [bInit])
  have h1' : (bRun m sched).manager.active_connections
      = m.active_connections := h1
  have h2' : (bRun m sched).attempted
      = m.active_connections.take (bRun m sched).idx := h2
  refine ⟨h1', h2', ?_⟩
  intro hdone
  rw [iterDone, Bool.and_eq_true] at hdone
  have hlen : (bRun m sched).manager.active_connections.length
      ≤ (bRun m sched).idx := by
    have := hdone.2
    simpa using this
  rw [h1'] at hlen
  rw [h2']
  exact List.take_of_length_le hlen

/-- C9 amended-claim witness: two live connections, the canonical
uninterrupted schedule; both connections are attempted, in list order. -/
theorem broadcast_iterates_live_list_witness :
    noEnvAct [BAct.next, .resolve true, .next, .resolve true] = true ∧
    (bRun ⟨[1, 2], [(1, ⟨0, 0⟩), (2, ⟨0, 0⟩)]⟩
        [BAct.next, .resolve true, .next, .resolve true]).attempted
      = (ConnectionManager.mk [1, 2] [(1, ⟨0, 0⟩), (2, ⟨0, 0⟩)]
          ).active_connections :=
  ⟨by decide,
   (broadcast_iterates_live_list ⟨[1, 2], [(1, ⟨0, 0⟩), (2, ⟨0, 0⟩)]⟩
      [BAct.next, .resolve true, .next, .resolve true]
      (by decide)).2.2 (by decide)⟩

end Observatory
